import Mathlib

/-!
Verification of the CVCS-LOCAL snapshot/version engine.

This file shallowly embeds the Go source of the repository:
* `core/data_provider.go`, `core/jsonfile_provider.go` — metadata store,
* `core/local_storage.go` — blob store,
* `calculate/codebase.go` — snapshot pipeline,
* the `calculate` service layer (upload / history / delete / archive services).

Machine integers are modelled as `Nat` (sizes never overflow in the claims
considered), byte slices as `List Nat`, `time.Time` as a `Nat` timestamp, and
fallible Go calls as `Except String`.  Concurrency (goroutine fan-out and the
nondeterministic iteration order of Go maps) is modelled by quantifying over
an explicit schedule / iteration-order parameter.
-/

namespace CVCS

/-- Byte strings, as in Go `[]byte`. -/
abbrev Bytes := List Nat

/-- `core.LinkageType` with its two constants `sequential` and `branch_from`. -/
inductive LinkageType where
  | sequential
  | branchFrom
deriving DecidableEq

/-- `core.Codebase` (times modelled as `Nat`). -/
structure Codebase where
  id : String
  name : String
  description : String
  branch : String
  createdAt : Nat
  updatedAt : Nat
deriving DecidableEq

/-- The `Stats` sub-record of `core.Version`.  The derived float field
`compression_ratio` is not modelled (floating point); no claim refers to it. -/
structure VersionStats where
  totalFiles : Nat
  totalSize : Nat
  compressedSize : Nat
deriving DecidableEq

/-- `core.Version`. -/
structure Version where
  id : String
  codebaseID : String
  version : String
  branch : String
  treeID : String
  message : String
  createdAt : Nat
  stats : VersionStats
deriving DecidableEq

/-- `core.File` (one file-index entry). -/
structure File where
  path : String
  hash : String
  size : Nat
  compressedSize : Nat
  storageKey : String
  type : String
deriving DecidableEq

/-- `core.FileTree`. -/
structure FileTree where
  treeID : String
  versionID : String
  files : List File
  generatedAt : Nat
deriving DecidableEq

/-! ### Association-list helpers (Go `map`s are embedded as association lists) -/

/-- Lookup in an association list (Go `m[k]`). -/
def lookupA {α : Type} (k : String) : List (String × α) → Option α
  | [] => none
  | kv :: rest => if kv.1 == k then some kv.2 else lookupA k rest

/-- Insert-or-overwrite in an association list (Go `m[k] = v`). -/
def insertA {α : Type} (k : String) (v : α) : List (String × α) → List (String × α)
  | [] => [(k, v)]
  | kv :: rest => if kv.1 == k then (k, v) :: rest else kv :: insertA k v rest

/-- Key removal from an association list (Go `delete(m, k)`). -/
def removeA {α : Type} (k : String) (l : List (String × α)) : List (String × α) :=
  l.filter (fun kv => kv.1 != k)

/-! ### String primitives

Structurally recursive equivalents of the Go standard-library string
operations the source uses (`strings.Split`, `strings.TrimSpace` on ASCII,
`strings.HasPrefix`, `strings.ToLower` on ASCII, `strings.Join`), defined
over `List Char` so that every definition in this file evaluates inside the
kernel. -/

/-- Split a character list at a separator; `strings.Split` semantics
(the empty string yields one empty field). -/
def splitCharsOn (sep : Char) : List Char → List (List Char)
  | [] => [[]]
  | c :: rest =>
      let r := splitCharsOn sep rest
      if c == sep then [] :: r
      else
        match r with
        | [] => [[c]]
        | g :: gs => (c :: g) :: gs

/-- `strings.Split s "/"`. -/
def splitOnSlash (s : String) : List String :=
  (splitCharsOn '/' s.data).map String.mk

/-- `strings.Join parts sep`. -/
def joinWith (sep : String) : List String → String
  | [] => ""
  | [x] => x
  | x :: xs => x ++ sep ++ joinWith sep xs

/-- ASCII whitespace, the fragment of Unicode whitespace the claims need. -/
def isSpaceChar (c : Char) : Bool :=
  c == ' ' || c == '\t' || c == '\n' || c == '\r'

/-- `strings.TrimSpace` (ASCII whitespace). -/
def trimSpace (s : String) : String :=
  String.mk (((s.data.dropWhile isSpaceChar).reverse.dropWhile isSpaceChar).reverse)

/-- `strings.HasPrefix` on the underlying character lists. -/
def listStartsWith : List Char → List Char → Bool
  | [], _ => true
  | _ :: _, [] => false
  | a :: as, b :: bs => a == b && listStartsWith as bs

/-- `strings.HasPrefix p s`. -/
def strStartsWith (p s : String) : Bool :=
  listStartsWith p.data s.data

/-- ASCII lower-casing of one character. -/
def charLower (c : Char) : Char :=
  if 65 ≤ c.toNat && c.toNat ≤ 90 then Char.ofNat (c.toNat + 32) else c

/-- `strings.ToLower` (ASCII). -/
def lowerStr (s : String) : String :=
  String.mk (s.data.map charLower)

/-! ### Content hash and compression -/

/-- Modelled from the spec: `utils.CalculateHash` wraps Go `crypto/sha256`
(standard library, not part of this repository) and hex-encodes the digest.
It is modelled as a deterministic content digest; the practical
collision-freedom of SHA-256 is idealized by making the encoding injective.
No claim relies on the digest having a fixed length. -/
def calculateHash (data : Bytes) : String :=
  "sha256." ++ joinWith "." (data.map (fun b => toString b))

/-- Modelled from the spec: `utils.CompressData` / `compressZlib` (the zlib
helper file is not under `src/`; only its callers are).  Per the spec the
content is "zlib-class compressed" losslessly; the stream is modelled as a
two-byte zlib header followed by the payload. -/
def compressData (data : Bytes) : Bytes :=
  120 :: 156 :: data

/-- Modelled from the spec: `utils.DecompressData` / `decompressZlib`, the
inverse of `compressData`; fails on a stream without the zlib header. -/
def decompressData (data : Bytes) : Except String Bytes :=
  match data with
  | 120 :: 156 :: rest => .ok rest
  | _ => .error "invalid compressed data"

/-! ### Path handling (`path/filepath`, slash-separated as on the target OS) -/

/-- Component processing of Go `filepath.Clean` for rooted paths: drop empty
and `.` components, let `..` consume the preceding component (or vanish at
the root). -/
def cleanedParts (parts : List String) : List String :=
  parts.foldl
    (fun acc part =>
      if part == "" || part == "." then acc
      else if part == ".." then acc.dropLast
      else acc ++ [part])
    []

/-- Go `filepath.Clean` on an absolute slash-separated path. -/
def filepathClean (p : String) : String :=
  "/" ++ joinWith "/" (cleanedParts (splitOnSlash p))

/-- Go `filepath.Join a b` = `Clean(a + "/" + b)` (absolute `a`). -/
def filepathJoin (a b : String) : String :=
  filepathClean (a ++ "/" ++ b)

/-- Go `filepath.Ext`: the suffix starting at the final dot of the final
path element, `""` when that element has no dot. -/
def filepathExt (p : String) : String :=
  let r := p.data.reverse
  let pre := r.takeWhile (fun c => c != '.' && c != '/')
  match r.drop pre.length with
  | '.' :: _ => String.mk ('.' :: pre.reverse)
  | _ => ""

/-- Go `filepath.Base`: the final path element. -/
def filepathBase (p : String) : String :=
  match (splitOnSlash p).getLast? with
  | some s => s
  | none => p

/-! ### Blob store (`core/local_storage.go`) -/

/-- `core.LocalStorage` together with its backing filesystem.  `objects` maps
cleaned absolute paths to contents.  `failPuts` / `failDeletePrefixes` are a
fault-injection model of the underlying filesystem: writes to a listed object
name (resp. `os.RemoveAll` for a listed prefix) fail with an I/O error; with
both lists empty the filesystem is fault-free. -/
structure BlobStore where
  basePath : String
  objects : List (String × Bytes)
  failPuts : List String
  failDeletePrefixes : List String
deriving DecidableEq

/-- `LocalStorage.PutObject`: create-or-overwrite at `Join(basePath, name)`. -/
def BlobStore.putObject (s : BlobStore) (objectName : String) (data : Bytes) :
    Except String BlobStore :=
  if s.failPuts.contains objectName then
    .error ("storage write failed: " ++ objectName)
  else
    .ok { s with objects := insertA (filepathJoin s.basePath objectName) data s.objects }

/-- `LocalStorage.GetObject`. -/
def BlobStore.getObject (s : BlobStore) (objectName : String) : Except String Bytes :=
  match lookupA (filepathJoin s.basePath objectName) s.objects with
  | some d => .ok d
  | none => .error ("object not found: " ++ objectName)

/-- Whether path `p` lies at or below directory `dir` (the effect of
`os.RemoveAll dir` on a stored file at `p`). -/
def pathWithin (dir p : String) : Bool :=
  p == dir || strStartsWith (dir ++ "/") p

/-- `LocalStorage.DeleteObjectsWithPrefix`, exactly as in the source: join the
prefix onto the base path, reject a whitespace-only prefix or a joined path
that does not have the base path as a *string* prefix, then `os.RemoveAll`. -/
def BlobStore.deleteObjectsPrefixed (s : BlobStore) (pfx : String) :
    Except String BlobStore :=
  let dirPath := filepathJoin s.basePath pfx
  if trimSpace pfx == "" || !(strStartsWith s.basePath dirPath) then
    .error "not allowed to delete root directory or use empty prefix"
  else if s.failDeletePrefixes.contains pfx then
    .error "storage delete failed"
  else
    .ok { s with objects := s.objects.filter (fun kv => !(pathWithin dirPath kv.1)) }

/-! ### Per-file snapshot pipeline (`calculate/codebase.go`) -/

/-- The image-extension table of `processFile`. -/
def imageExts : List String :=
  [".jpg", ".jpeg", ".png", ".gif", ".webp", ".bmp", ".tiff"]

/-- The extension-based classification of `processFile`. -/
def isImagePath (relativePath : String) : Bool :=
  imageExts.contains (lowerStr (filepathExt relativePath))

/-- The bytes `processFile` uploads: images verbatim, everything else
zlib-compressed. -/
def contentToUpload (relativePath : String) (data : Bytes) : Bytes :=
  if isImagePath relativePath then data else compressData data

/-- One uploaded (relative path, content) pair; `multipart.FileHeader` is
modelled as the bytes it opens to. -/
structure FileUnit where
  path : String
  data : Bytes
deriving DecidableEq

/-- `processFile`: classify, compress non-images, hash the *original* bytes,
derive the storage key `<codebaseName>/<hash>`, upload, emit a `File`. -/
def processFile (storage : BlobStore) (relativePath : String) (data : Bytes)
    (codebaseName : String) : Except String (BlobStore × File) :=
  let originalSize := data.length
  let isImage := isImagePath relativePath
  let upload := if isImage then data else compressData data
  let compressedSize := upload.length
  let fileType := if isImage then "image" else "other"
  let hash := calculateHash data
  let storageKey := codebaseName ++ "/" ++ hash
  match storage.putObject storageKey upload with
  | .error e => .error ("storage upload failed " ++ relativePath ++ ": " ++ e)
  | .ok storage' =>
      .ok (storage',
        { path := relativePath, hash := hash, size := originalSize,
          compressedSize := compressedSize, storageKey := storageKey,
          type := fileType })

/-! ### Metadata store (`core/jsonfile_provider.go`)

The provider's in-memory cache (`inMemoryCache`) is the authoritative state;
every mutating call persists the affected collections before returning, and
the JSON writes themselves are modelled as always succeeding.  Go maps become
association lists; `VersionMapping` (a map keyed by `child_version_id` whose
records carry the key in their `child_version_id` field) becomes a list of
records looked up by that field. -/

/-- `versionMappingRecord` — one lineage link. -/
structure LinkRecord where
  id : String
  codebaseID : String
  branch : String
  childVersionID : String
  parentVersionID : String
  linkageType : LinkageType
deriving DecidableEq

/-- `JSONFileProvider`'s state: the four collections, the two derived lookup
indexes, and the per-codebase history-cache documents.  The per-codebase
version lists in `versionsByCodebase` are kept sorted by `createdAt`
descending, as `rebuildIndexes` / `CreateVersion` maintain via `sort.Slice`
(which guarantees nothing about the relative order of equal timestamps). -/
structure ProviderState where
  codebases : List (String × Codebase)
  versions : List (String × Version)
  fileIndexes : List (String × List File)
  versionMapping : List LinkRecord
  versionsByCodebase : List (String × List Version)
  versionIDByBranchAndName : List (String × String)
  historyCache : List (String × String)
deriving DecidableEq

/-- The state of a freshly created provider over an empty directory. -/
def emptyProvider : ProviderState :=
  ⟨[], [], [], [], [], [], []⟩

/-- The `"codebaseID/branch/version"` key of `versionIDByBranchAndName`. -/
def versionKey (cid branch ver : String) : String :=
  cid ++ "/" ++ branch ++ "/" ++ ver

/-- Insertion keeping a version list sorted by `createdAt` descending: the new
version goes after every version with an equal-or-later timestamp.  This is
one outcome of `append` + (non-stable) `sort.Slice` with the strict
`CreatedAt.After` comparator; ties are resolved arbitrarily by the source. -/
def insertDescByCreated (v : Version) : List Version → List Version
  | [] => [v]
  | w :: rest =>
      if w.createdAt < v.createdAt then v :: w :: rest
      else w :: insertDescByCreated v rest

/-- `JSONFileProvider.CreateCodebase`. -/
def ProviderState.createCodebase (st : ProviderState) (cb : Codebase) :
    Except String ProviderState :=
  if (lookupA cb.id st.codebases).isSome then
    .error ("codebase " ++ cb.id ++ " already exists")
  else
    .ok { st with codebases := insertA cb.id cb st.codebases }

/-- `JSONFileProvider.GetCodebaseByID`. -/
def ProviderState.getCodebaseByID (st : ProviderState) (id : String) :
    Except String Codebase :=
  match lookupA id st.codebases with
  | some cb => .ok cb
  | none => .error ("codebase " ++ id ++ " not found")

/-- `JSONFileProvider.UpdateCodebaseTimestamp`. -/
def ProviderState.updateCodebaseTimestamp (st : ProviderState) (id : String) (t : Nat) :
    Except String ProviderState :=
  match lookupA id st.codebases with
  | none => .error ("codebase " ++ id ++ " not found")
  | some cb => .ok { st with codebases := insertA id { cb with updatedAt := t } st.codebases }

/-- `JSONFileProvider.CreateVersion`: store the version and its file index and
update both lookup indexes. -/
def ProviderState.createVersion (st : ProviderState) (v : Version) (files : List File) :
    Except String ProviderState :=
  if (lookupA v.id st.versions).isSome then
    .error ("version " ++ v.id ++ " already exists")
  else
    let bucket := (lookupA v.codebaseID st.versionsByCodebase).getD []
    .ok { st with
      versions := insertA v.id v st.versions,
      fileIndexes := insertA v.treeID files st.fileIndexes,
      versionsByCodebase :=
        insertA v.codebaseID (insertDescByCreated v bucket) st.versionsByCodebase,
      versionIDByBranchAndName :=
        insertA (versionKey v.codebaseID v.branch v.version) v.id
          st.versionIDByBranchAndName }

/-- `JSONFileProvider.GetVersion`: resolve the (codebase, branch, label)
triple through the index, then fetch the record. -/
def ProviderState.getVersion (st : ProviderState) (cid branch ver : String) :
    Except String Version :=
  match lookupA (versionKey cid branch ver) st.versionIDByBranchAndName with
  | none => .error ("version " ++ branch ++ "/" ++ ver ++ " not found")
  | some vid =>
      match lookupA vid st.versions with
      | none => .error ("data inconsistency: version ID " ++ vid ++ " not found")
      | some v => .ok v

/-- `JSONFileProvider.GetFileIndexesByTreeID`. -/
def ProviderState.getFileIndexesByTreeID (st : ProviderState) (treeID : String) :
    Except String (List File) :=
  match lookupA treeID st.fileIndexes with
  | some files => .ok files
  | none => .error ("tree " ++ treeID ++ " not found")

/-- `JSONFileProvider.FindLatestVersionInBranch`: first hit in the
newest-first per-codebase list with the right branch, excluding one id. -/
def ProviderState.findLatestVersionInBranch
    (st : ProviderState) (cid branch excludeID : String) : Option Version :=
  ((lookupA cid st.versionsByCodebase).getD []).find?
    (fun v => v.branch == branch && v.id != excludeID)

/-- `JSONFileProvider.IsNewBranch`: no version on the branch besides the
excluded one. -/
def ProviderState.isNewBranch (st : ProviderState) (cid branch excludeID : String) : Bool :=
  (((lookupA cid st.versionsByCodebase).getD []).filter
    (fun v => v.branch == branch && v.id != excludeID)).length == 0

/-- `JSONFileProvider.FindLatestVersionInMain` — the literal branch name
`"main"`, with no exclusion. -/
def ProviderState.findLatestVersionInMain (st : ProviderState) (cid : String) :
    Option Version :=
  st.findLatestVersionInBranch cid "main" ""

/-- `JSONFileProvider.CreateVersionLink`: a silent no-op when the child
already has a link, otherwise insert one record.  `linkID` stands for the
generated `uuid.NewString()`; the call reports success in both cases. -/
def ProviderState.createVersionLink (st : ProviderState)
    (cid childID parentID branch : String) (ltype : LinkageType) (linkID : String) :
    ProviderState :=
  if (st.versionMapping.find? (fun r => r.childVersionID == childID)).isSome then st
  else { st with versionMapping :=
    ⟨linkID, cid, branch, childID, parentID, ltype⟩ :: st.versionMapping }

/-- `JSONFileProvider.DeleteCodebaseByID`: drop the codebase and every
version, file index, lineage link, index entry and history-cache document
that references it. -/
def ProviderState.deleteCodebaseByID (st : ProviderState) (id : String) : ProviderState :=
  let related := (lookupA id st.versionsByCodebase).getD []
  let relIDs := related.map (·.id)
  let relTrees := related.map (·.treeID)
  let relKeys := related.map (fun v => versionKey v.codebaseID v.branch v.version)
  { codebases := removeA id st.codebases,
    versions := st.versions.filter (fun kv => !(relIDs.contains kv.1)),
    fileIndexes := st.fileIndexes.filter (fun kv => !(relTrees.contains kv.1)),
    versionMapping := st.versionMapping.filter (fun r => !(relIDs.contains r.childVersionID)),
    versionsByCodebase := removeA id st.versionsByCodebase,
    versionIDByBranchAndName :=
      st.versionIDByBranchAndName.filter (fun kv => !(relKeys.contains kv.1)),
    historyCache := removeA id st.historyCache }

/-- `JSONFileProvider.GetHistoryCache`. -/
def ProviderState.getHistoryCache (st : ProviderState) (cid : String) :
    Except String String :=
  match lookupA cid st.historyCache with
  | some blob => .ok blob
  | none => .error "cache not found"

/-- `JSONFileProvider.UpdateHistoryCache` (create-or-overwrite). -/
def ProviderState.updateHistoryCache (st : ProviderState) (cid : String) (data : String) :
    ProviderState :=
  { st with historyCache := insertA cid data st.historyCache }

/-! ### Version graph (`core.VersionNode` / `VersionEdge` / `VersionMapResponse`)
and the history service (`part_004`, `HistoryService`). -/

/-- `core.VersionNode`. -/
structure VersionNode where
  id : String
  version : String
  branch : String
  message : String
  createdAt : Nat
  stats : VersionStats
deriving DecidableEq

/-- `core.VersionEdge` (`From` = parent id, `To` = child id). -/
structure VersionEdge where
  fromID : String
  toID : String
  linkageType : LinkageType
deriving DecidableEq

/-- `core.VersionMapResponse`.  `refs` is a Go `map[string]string`; it is kept
here as the association list in insertion order, and serialization sorts it by
key exactly as `json.Marshal` does for Go maps. -/
structure VersionMapResponse where
  codebaseID : String
  nodes : List VersionNode
  edges : List VersionEdge
  refs : List (String × String)
deriving DecidableEq

/-- The projection `GetAllVersionsForMap` applies to each version. -/
def Version.toNode (v : Version) : VersionNode :=
  ⟨v.id, v.version, v.branch, v.message, v.createdAt, v.stats⟩

/-- `JSONFileProvider.GetAllVersionsForMap`: nodes in the newest-first order
of the per-codebase slice. -/
def ProviderState.getAllVersionsForMap (st : ProviderState) (cid : String) :
    List VersionNode :=
  ((lookupA cid st.versionsByCodebase).getD []).map Version.toNode

/-- `JSONFileProvider.GetAllVersionEdgesForMap`.  The source iterates the Go
map `p.cache.VersionMapping`, whose iteration order is unspecified and varies
between iterations; `mapOrder` is that iteration order, an arbitrary
permutation of the stored records. -/
def edgesFromMapping (mapOrder : List LinkRecord) (cid : String) : List VersionEdge :=
  (mapOrder.filter (fun m => m.codebaseID == cid)).map
    (fun m => ⟨m.parentVersionID, m.childVersionID, m.linkageType⟩)

/-- `JSONFileProvider.GetBranchHeadsForMap`: scanning newest-first, the first
version seen per branch is that branch's head. -/
def ProviderState.getBranchHeadsForMap (st : ProviderState) (cid : String) :
    List (String × String) :=
  ((lookupA cid st.versionsByCodebase).getD []).foldl
    (fun heads v =>
      if (lookupA v.branch heads).isSome then heads else heads ++ [(v.branch, v.id)])
    []

/-! `json.Marshal` of `VersionMapResponse` is modelled as a deterministic
serializer: fields in struct order, slices in order, and map keys sorted
(as Go's encoder sorts map keys).  The byte-level JSON syntax is immaterial
to every claim; only determinism and sensitivity to slice order matter. -/

/-- Sorted insertion for ref serialization (string key order). -/
def insertSortedKey (kv : String × String) :
    List (String × String) → List (String × String)
  | [] => [kv]
  | x :: rest => if kv.1 ≤ x.1 then kv :: x :: rest else x :: insertSortedKey kv rest

/-- Key-sort of a ref map, as Go's JSON encoder orders map keys. -/
def sortByKey (l : List (String × String)) : List (String × String) :=
  l.foldr insertSortedKey []

/-- The wire name of a linkage type. -/
def LinkageType.wire : LinkageType → String
  | .sequential => "sequential"
  | .branchFrom => "branch_from"

/-- Serialization of one node. -/
def serializeNode (n : VersionNode) : String :=
  "node(" ++ n.id ++ "," ++ n.version ++ "," ++ n.branch ++ "," ++ n.message ++ ","
    ++ toString n.createdAt ++ ",stats(" ++ toString n.stats.totalFiles ++ ","
    ++ toString n.stats.totalSize ++ "," ++ toString n.stats.compressedSize ++ "))"

/-- Serialization of one edge. -/
def serializeEdge (e : VersionEdge) : String :=
  "edge(" ++ e.fromID ++ "," ++ e.toID ++ "," ++ e.linkageType.wire ++ ")"

/-- `json.Marshal(core.VersionMapResponse)` as a deterministic serializer. -/
def serializeGraph (g : VersionMapResponse) : String :=
  "graph(" ++ g.codebaseID ++ ";"
    ++ joinWith "," (g.nodes.map serializeNode) ++ ";"
    ++ joinWith "," (g.edges.map serializeEdge) ++ ";"
    ++ joinWith ","
        ((sortByKey g.refs).map (fun kv => kv.1 ++ "=" ++ kv.2)) ++ ")"

/-- `HistoryService.RebuildHistoryCache`: query nodes, edges (under the map
iteration order `mapOrder`) and branch heads, serialize, upsert the cache,
and return the built graph. -/
def ProviderState.rebuildHistoryCache (st : ProviderState) (cid : String)
    (mapOrder : List LinkRecord) : ProviderState × VersionMapResponse :=
  let g : VersionMapResponse :=
    ⟨cid, st.getAllVersionsForMap cid, edgesFromMapping mapOrder cid,
      st.getBranchHeadsForMap cid⟩
  (st.updateHistoryCache cid (serializeGraph g), g)

/-- `HistoryService.GetVersionMap`: return the cached blob verbatim when
present; on a miss rebuild, then re-read the cache. -/
def ProviderState.getVersionMap (st : ProviderState) (cid : String)
    (mapOrder : List LinkRecord) : Except String (String × ProviderState) :=
  match lookupA cid st.historyCache with
  | some blob => .ok (blob, st)
  | none =>
      let st' := (st.rebuildHistoryCache cid mapOrder).1
      match lookupA cid st'.historyCache with
      | some blob => .ok (blob, st')
      | none => .error "failed to read newly built cache"

/-- `calculate.VersionIdentifier`. -/
structure VersionIdentifier where
  branch : String
  version : String
deriving DecidableEq

/-- `calculate.BranchFrom` (explicit branch source of a snapshot request). -/
structure BranchFrom where
  branch : String
  version : String
deriving DecidableEq

/-- `HistoryService.CreateVersionLinkWithType` — the manual link-creation
entry point.  The returned `Bool` is `true` iff the call scheduled the
fire-and-forget asynchronous cache rebuild (`go s.RebuildHistoryCache`); the
rebuild itself runs detached and is not part of the returned state. -/
def createVersionLinkWithType (st : ProviderState) (cid : String)
    (child parentIdent : VersionIdentifier) (ltype : LinkageType) (linkID : String) :
    Except String (ProviderState × Bool) :=
  match st.getVersion cid child.branch child.version with
  | .error e => .error ("child version not found: " ++ e)
  | .ok childVersion =>
      match st.getVersion cid parentIdent.branch parentIdent.version with
      | .error e => .error ("parent version not found: " ++ e)
      | .ok parentVersion =>
          .ok (st.createVersionLink cid childVersion.id parentVersion.id child.branch
                ltype linkID, true)

/-- `HistoryService.AutoCreateSequentialLink`: link to the latest other
version on the same branch; first version on the branch needs no link. -/
def autoCreateSequentialLink (st : ProviderState)
    (cid branch currentVersionID linkID : String) : Except String ProviderState :=
  match st.findLatestVersionInBranch cid branch currentVersionID with
  | none => .ok st
  | some parentVersion =>
      .ok (st.createVersionLink cid currentVersionID parentVersion.id branch
            .sequential linkID)

/-- `HistoryService.AutoCreateBranchFromLink`: resolve the named source
version and link `branch_from`. -/
def autoCreateBranchFromLink (st : ProviderState)
    (cid newVersionID childBranch : String) (bf : BranchFrom) (linkID : String) :
    Except String ProviderState :=
  match st.getVersion cid bf.branch bf.version with
  | .error e => .error ("source version not found: " ++ e)
  | .ok parentVersion =>
      .ok (st.createVersionLink cid newVersionID parentVersion.id childBranch
            .branchFrom linkID)

/-- `HistoryService.AutoCreateLinkForNewBranch`: link `branch_from` to the
latest version on `"main"`; orphan branches (no main version) get no link. -/
def autoCreateLinkForNewBranch (st : ProviderState)
    (cid newVersionID childBranch linkID : String) : Except String ProviderState :=
  match st.findLatestVersionInMain cid with
  | none => .ok st
  | some parentVersion =>
      .ok (st.createVersionLink cid newVersionID parentVersion.id childBranch
            .branchFrom linkID)

/-- `UploadService.establishLinkage`: explicit `branch_from` wins; otherwise
a new branch links from main and an existing branch links sequentially. -/
def establishLinkage (st : ProviderState) (cid versionID branch : String)
    (branchFrom : Option BranchFrom) (linkID : String) : Except String ProviderState :=
  match branchFrom with
  | some bf => autoCreateBranchFromLink st cid versionID branch bf linkID
  | none =>
      if st.isNewBranch cid branch versionID then
        autoCreateLinkForNewBranch st cid versionID branch linkID
      else
        autoCreateSequentialLink st cid branch versionID linkID

/-! ### Snapshot pipeline fan-out (`processFiles` / `CreateSnapshot`) and the
service entry points (`part_004`).

`processFiles` launches one goroutine per file, waits for all of them, then
returns the first error received on the error channel.  The only observable
nondeterminism is the order in which the units run and report; it is modelled
by folding sequentially over `order`, an arbitrary arrangement of the
uploaded files (Go map iteration plus scheduling).  Failed units mutate
nothing; successful units keep their blob writes even when another unit
fails. -/

/-- Accumulator of the fan-in (`processedFiles`, `stats`, error channel). -/
structure PipelineAcc where
  storage : BlobStore
  processed : List File
  stats : VersionStats
  errors : List String
deriving DecidableEq

/-- One unit of `processFiles` work, appended to the accumulator. -/
def processFilesStep (codebaseName : String) (acc : PipelineAcc) (u : FileUnit) :
    PipelineAcc :=
  match processFile acc.storage u.path u.data codebaseName with
  | .error e => { acc with errors := acc.errors ++ [e] }
  | .ok (storage', f) =>
      { storage := storage',
        processed := acc.processed ++ [f],
        stats := ⟨acc.stats.totalFiles + 1, acc.stats.totalSize + f.size,
          acc.stats.compressedSize + f.compressedSize⟩,
        errors := acc.errors }

/-- `processFiles` in schedule order `order`: every unit runs; afterwards the
first collected error (if any) fails the pipeline.  The mutated blob store is
returned in either case — the Go storage writes are not rolled back. -/
def processFiles (storage : BlobStore) (order : List FileUnit) (codebaseName : String) :
    BlobStore × Except String (List File × VersionStats) :=
  let acc := order.foldl (processFilesStep codebaseName)
    ⟨storage, [], ⟨0, 0, 0⟩, []⟩
  match acc.errors with
  | [] => (acc.storage, .ok (acc.processed, acc.stats))
  | e :: _ => (acc.storage, .error e)

/-- `CreateSnapshot`: run the pipeline, then assemble the version and file
tree records.  `versionID` / `treeID` stand for the generated UUIDs and `now`
for `time.Now()`; the `compression_ratio` float is not modelled. -/
def createSnapshot (storage : BlobStore) (order : List FileUnit)
    (codebaseName branch ver message versionID treeID : String) (now : Nat) :
    BlobStore × Except String (Version × FileTree) :=
  match processFiles storage order codebaseName with
  | (storage', .error e) => (storage', .error e)
  | (storage', .ok (files, stats)) =>
      (storage',
        .ok ({ id := versionID, codebaseID := "", version := ver, branch := branch,
               treeID := treeID, message := message, createdAt := now, stats := stats },
             { treeID := treeID, versionID := versionID, files := files,
               generatedAt := now }))

/-- The process-wide provider pair (`core.GetProvider()` / `core.GetStore()`),
as the state a service call reads and writes. -/
structure SysState where
  provider : ProviderState
  storage : BlobStore
deriving DecidableEq

/-- The identifiers a snapshot request generates on the way (UUIDs and the
clock), passed explicitly. -/
structure SnapshotIDs where
  versionID : String
  treeID : String
  linkID : String
  now : Nat
deriving DecidableEq

/-- The parts of `core.SnapshotResponse` the claims observe. -/
structure SnapshotResult where
  version : Version
  fileTree : FileTree
  versionMapJSON : Option String
deriving DecidableEq

/-- `UploadService.ProcessSnapshot`: verify the codebase, run the snapshot
pipeline, persist metadata, optionally auto-link (logging failures without
failing the snapshot), and read the version graph (failures again only
logged). -/
def processSnapshot (sys : SysState) (cid ver branch message : String)
    (order : List FileUnit) (branchFrom : Option BranchFrom) (autoLinkage : Bool)
    (ids : SnapshotIDs) (mapOrder : List LinkRecord) :
    SysState × Except String SnapshotResult :=
  match lookupA cid sys.provider.codebases with
  | none => (sys, .error ("invalid codebase_id: " ++ cid))
  | some cb =>
      match createSnapshot sys.storage order cb.name branch ver message
          ids.versionID ids.treeID ids.now with
      | (storage', .error e) => (⟨sys.provider, storage'⟩, .error e)
      | (storage', .ok (version₀, fileTree)) =>
          let version := { version₀ with codebaseID := cid }
          match sys.provider.updateCodebaseTimestamp cid ids.now with
          | .error e =>
              (⟨sys.provider, storage'⟩, .error ("failed to update codebase: " ++ e))
          | .ok p₁ =>
              match p₁.createVersion version fileTree.files with
              | .error e =>
                  (⟨p₁, storage'⟩,
                    .error ("failed to insert version and file indexes: " ++ e))
              | .ok p₂ =>
                  let p₃ :=
                    if autoLinkage then
                      match establishLinkage p₂ cid version.id branch branchFrom
                          ids.linkID with
                      | .error _ => p₂
                      | .ok p' => p'
                    else p₂
                  match p₃.getVersionMap cid mapOrder with
                  | .error _ => (⟨p₃, storage'⟩, .ok ⟨version, fileTree, none⟩)
                  | .ok (blob, p₄) => (⟨p₄, storage'⟩, .ok ⟨version, fileTree, some blob⟩)

/-- `DeleteService.DeleteCodebase`: resolve the codebase, delete its blobs by
name prefix first, and only after that succeeds delete the metadata. -/
def deleteCodebase (sys : SysState) (cid : String) : SysState × Except String Unit :=
  match lookupA cid sys.provider.codebases with
  | none => (sys, .error ("codebase with ID " ++ cid ++ " not found"))
  | some cb =>
      match sys.storage.deleteObjectsPrefixed (cb.name ++ "/") with
      | .error e => (sys, .error ("failed to delete files from storage: " ++ e))
      | .ok storage' => (⟨sys.provider.deleteCodebaseByID cid, storage'⟩, .ok ())

/-- `ArchiveService.GetSingleFile`: resolve the version, look the path up in
its file index, fetch the blob, and decompress unless the type is
`"image"`. -/
def getSingleFile (sys : SysState) (cid branch ver fpath : String) :
    Except String (Bytes × String) :=
  match sys.provider.getVersion cid branch ver with
  | .error e => .error ("specified version not found: " ++ e)
  | .ok v =>
      match lookupA v.treeID sys.provider.fileIndexes with
      | none => .error ("file index for tree_id " ++ v.treeID ++ " not found")
      | some files =>
          match files.find? (fun f => f.path == fpath) with
          | none => .error ("file not found in version")
          | some f =>
              match sys.storage.getObject f.storageKey with
              | .error e => .error ("file download failed: " ++ e)
              | .ok content =>
                  if f.type != "image" then
                    match decompressData content with
                    | .error e => .error ("file decompression failed: " ++ e)
                    | .ok d => .ok (d, filepathBase fpath)
                  else
                    .ok (content, filepathBase fpath)

/-! ### Definitions used by the proofs: invariants, the reachable-state
relation, and concrete fixture states for the witnesses. -/

/-- C4 helper: the storage key `processFile` derives for a unit. -/
def storageKeyFor (codebaseName : String) (data : Bytes) : String :=
  codebaseName ++ "/" ++ calculateHash data

/-- A concrete store state for the C5 witness: the single file `a.txt` with
bytes `[7, 8]` was snapshotted into codebase `c1` (name `cb`) as version
`1.0` on `main`. -/
def fileC5 : File :=
  { path := "a.txt", hash := calculateHash [7, 8], size := 2,
    compressedSize := 4, storageKey := "cb" ++ "/" ++ calculateHash [7, 8],
    type := "other" }

def versionC5 : Version :=
  ⟨"v1", "c1", "1.0", "main", "t1", "msg", 5, ⟨1, 2, 4⟩⟩

def providerC5 : ProviderState :=
  { emptyProvider with
    versions := [("v1", versionC5)],
    fileIndexes := [("t1", [fileC5])],
    versionsByCodebase := [("c1", [versionC5])],
    versionIDByBranchAndName := [("c1/main/1.0", "v1")] }

def storageC5 : BlobStore :=
  ⟨"/r", [("/r/cb/" ++ calculateHash [7, 8], compressData [7, 8])], [], []⟩

/-- Per-codebase version lists sorted newest-first, the invariant
`rebuildIndexes` / `CreateVersion` maintain. -/
def SortedDesc (l : List Version) : Prop :=
  List.Pairwise (fun a b => b.createdAt ≤ a.createdAt) l

/-- Concrete versions for the C1 witness: `main` holds `v1`, and `v2` is the
first snapshot on the new branch `feature`. -/
def v1C1 : Version := ⟨"v1", "c1", "1.0", "main", "t1", "m1", 1, ⟨1, 1, 1⟩⟩

def v2C1 : Version := ⟨"v2", "c1", "2.0", "feature", "t2", "m2", 2, ⟨1, 1, 1⟩⟩

def stC1 : ProviderState :=
  { emptyProvider with
    versions := [("v1", v1C1), ("v2", v2C1)],
    versionsByCodebase := [("c1", [v2C1, v1C1])],
    versionIDByBranchAndName := [("c1/main/1.0", "v1"), ("c1/feature/2.0", "v2")] }

/-- Whether a pipeline unit's blob write fails, as a function of the
fault-model `failPuts` list (which no pipeline step changes). -/
def unitFails (failPuts : List String) (codebaseName : String) (u : FileUnit) : Bool :=
  failPuts.contains (storageKeyFor codebaseName u.data)

/-- The error message `processFile` reports for a failed blob write. -/
def uploadErrorMessage (codebaseName : String) (u : FileUnit) : String :=
  "storage upload failed " ++ u.path ++ ": " ++
    ("storage write failed: " ++ storageKeyFor codebaseName u.data)

/-- The `File` record a successful `processFile` emits. -/
def mkFileRecord (codebaseName : String) (u : FileUnit) : File :=
  { path := u.path, hash := calculateHash u.data, size := u.data.length,
    compressedSize := (contentToUpload u.path u.data).length,
    storageKey := storageKeyFor codebaseName u.data,
    type := if isImagePath u.path then "image" else "other" }

/-- C7 fixture: two lineage links of one codebase. -/
def r1C7 : LinkRecord := ⟨"l1", "c1", "b", "ch1", "pa1", .sequential⟩

def r2C7 : LinkRecord := ⟨"l2", "c1", "b", "ch2", "pa2", .sequential⟩

def stC7 : ProviderState := { emptyProvider with versionMapping := [r1C7, r2C7] }

/-- C8 fixture: a store rooted at `/data/oss` holding two of its own blobs,
next to a sibling directory `/data/oss2` outside the store root. -/
def storeC8 : BlobStore :=
  ⟨"/data/oss",
    [("/data/oss/cb/h1", [1]), ("/data/oss/cb/h2", [2]), ("/data/oss2/f", [3])],
    [], []⟩

/-- C9 fixture: one codebase whose blob-prefix deletion hits an injected
storage I/O failure. -/
def sysC9 : SysState :=
  ⟨{ emptyProvider with codebases := [("c1", ⟨"c1", "cb", "", "main", 0, 0⟩)] },
    ⟨"/r", [("/r/cb/h", [1])], [], ["cb/"]⟩⟩

/-- C6 fixtures: a codebase with a warm (empty-graph) cache. -/
def cbC6 : Codebase := ⟨"c1", "cb", "", "main", 0, 0⟩

def gC6 : VersionMapResponse := ⟨"c1", [], [], []⟩

def sysC6 : SysState :=
  ⟨{ emptyProvider with
      codebases := [("c1", cbC6)],
      historyCache := [("c1", serializeGraph gC6)] },
    ⟨"/r", [], [], []⟩⟩

/-- The provider states reachable from a fresh store through the provider's
mutating operations. -/
inductive Reachable : ProviderState → Prop
  | init : Reachable emptyProvider
  | createCodebase {st st' : ProviderState} {cb : Codebase} :
      Reachable st → st.createCodebase cb = .ok st' → Reachable st'
  | updateTimestamp {st st' : ProviderState} {id : String} {t : Nat} :
      Reachable st → st.updateCodebaseTimestamp id t = .ok st' → Reachable st'
  | createVersion {st st' : ProviderState} {v : Version} {files : List File} :
      Reachable st → st.createVersion v files = .ok st' → Reachable st'
  | createVersionLink {st : ProviderState}
      {cid childID parentID branch linkID : String} {ltype : LinkageType} :
      Reachable st →
      Reachable (st.createVersionLink cid childID parentID branch ltype linkID)
  | deleteCodebase {st : ProviderState} {id : String} :
      Reachable st → Reachable (st.deleteCodebaseByID id)
  | updateHistoryCache {st : ProviderState} {cid data : String} :
      Reachable st → Reachable (st.updateHistoryCache cid data)

end CVCS

namespace CVCS


theorem processFile_ok_iff (storage : BlobStore) (relativePath : String) (data : Bytes)
    (codebaseName : String) (storage' : BlobStore) (f : File) :
    processFile storage relativePath data codebaseName = .ok (storage', f) ↔
      storage.putObject (storageKeyFor codebaseName data) (contentToUpload relativePath data) =
        .ok storage' ∧
      f = { path := relativePath, hash := calculateHash data, size := data.length,
            compressedSize := (contentToUpload relativePath data).length,
            storageKey := storageKeyFor codebaseName data,
            type := if isImagePath relativePath then "image" else "other" } := by
  unfold processFile storageKeyFor contentToUpload
  by_cases himg : isImagePath relativePath
  · simp only [himg, if_true]
    cases h : storage.putObject (codebaseName ++ "/" ++ calculateHash data) data <;>
      simp [h, eq_comm, and_comm]
  · simp only [himg, if_false]
    cases h : storage.putObject (codebaseName ++ "/" ++ calculateHash data) (compressData data) <;>
      simp [h, eq_comm, and_comm]

theorem string_append_right_cancel (a b c : String) (h : a ++ c = b ++ c) : a = b := by
  have hd : a.data ++ c.data = b.data ++ c.data := by
    have := congrArg String.data h
    simpa using this
  have h2 : a.data = b.data := (List.append_inj' hd rfl).1
  exact String.ext h2

/-- C4: the content hash is computed over the original bytes regardless of the
storage form; the storage key is exactly `<codebaseName>/<hash>`; identical
bytes under one codebase name collide to one key; identical bytes under
different codebase names give distinct keys. -/
theorem C4_content_hash_and_storage_key
    (storage₁ storage₂ : BlobStore) (name₁ name₂ path₁ path₂ : String) (data : Bytes)
    (storage₁' storage₂' : BlobStore) (f₁ f₂ : File)
    (h₁ : processFile storage₁ path₁ data name₁ = .ok (storage₁', f₁))
    (h₂ : processFile storage₂ path₂ data name₂ = .ok (storage₂', f₂)) :
    f₁.hash = calculateHash data ∧
    f₁.storageKey = name₁ ++ "/" ++ calculateHash data ∧
    (name₁ = name₂ → f₁.storageKey = f₂.storageKey) ∧
    (name₁ ≠ name₂ → f₁.storageKey ≠ f₂.storageKey) := by
  obtain ⟨-, hf₁⟩ := (processFile_ok_iff _ _ _ _ _ _).1 h₁
  obtain ⟨-, hf₂⟩ := (processFile_ok_iff _ _ _ _ _ _).1 h₂
  subst hf₁; subst hf₂
  refine ⟨rfl, rfl, ?_, ?_⟩
  · intro h; simp [storageKeyFor, h]
  · intro hne hkey
    have h1 : name₁ ++ "/" = name₂ ++ "/" :=
      string_append_right_cancel (name₁ ++ "/") (name₂ ++ "/") (calculateHash data)
        (by simpa [storageKeyFor] using hkey)
    exact hne (string_append_right_cancel name₁ name₂ "/" h1)

/-- Lookup after insert-or-overwrite. -/
theorem lookupA_insertA {α : Type} (k k' : String) (v : α) (l : List (String × α)) :
    lookupA k (insertA k' v l) = if k' = k then some v else lookupA k l := by
  induction l with
  | nil =>
      by_cases h : k' = k <;> simp [insertA, lookupA, h]
  | cons kv rest ih =>
      by_cases hk : kv.1 = k'
      · by_cases h : k' = k <;> simp [insertA, lookupA, hk, h, ih]
      · by_cases h : k' = k <;> by_cases hkk : kv.1 = k <;>
          simp_all [insertA, lookupA]

theorem C4_witness :
    ∃ s₁ s₂ : BlobStore, ∃ f₁ f₂ : File,
      processFile ⟨"/r", [], [], []⟩ "a.txt" [1, 2] "cbA" = .ok (s₁, f₁) ∧
      processFile ⟨"/r", [], [], []⟩ "b.txt" [1, 2] "cbB" = .ok (s₂, f₂) ∧
      f₁.hash = calculateHash [1, 2] ∧
      f₁.storageKey = "cbA" ++ "/" ++ calculateHash [1, 2] ∧
      f₁.storageKey ≠ f₂.storageKey := by
  refine ⟨_, _, _, _, rfl, rfl, ?_⟩
  have h := C4_content_hash_and_storage_key
    ⟨"/r", [], [], []⟩ ⟨"/r", [], [], []⟩ "cbA" "cbB" "a.txt" "b.txt" [1, 2]
    _ _ _ _ rfl rfl
  exact ⟨h.1, h.2.1, h.2.2.2 (by decide)⟩

/-- C5: storing a file through `processFile` and reading it back through the
single-file path returns the original bytes: non-image content survives the
compress/decompress round trip, image content is stored and returned
verbatim, and the hash of the retrieved bytes is the recorded content hash
(the hash of the original bytes, by C4). -/
theorem C5_round_trip
    (storage storage' storageAtRead : BlobStore) (provider : ProviderState)
    (name relPath : String) (data : Bytes) (f : File)
    (cid branch ver : String) (v : Version) (files : List File)
    (hpf : processFile storage relPath data name = .ok (storage', f))
    (hv : provider.getVersion cid branch ver = .ok v)
    (hidx : lookupA v.treeID provider.fileIndexes = some files)
    (hfind : files.find? (fun g => g.path == f.path) = some f)
    (hobj : storageAtRead.getObject f.storageKey = .ok (contentToUpload relPath data)) :
    decompressData (compressData data) = .ok data ∧
    (isImagePath relPath = true → contentToUpload relPath data = data) ∧
    getSingleFile ⟨provider, storageAtRead⟩ cid branch ver f.path =
      .ok (data, filepathBase f.path) ∧
    calculateHash data = f.hash := by
  obtain ⟨-, hf⟩ := (processFile_ok_iff _ _ _ _ _ _).1 hpf
  refine ⟨rfl, fun himg => by simp [contentToUpload, himg], ?_, by rw [hf]⟩
  unfold getSingleFile
  rw [hv]; dsimp only
  rw [hidx]; dsimp only
  rw [hfind]; dsimp only
  rw [hobj]; dsimp only
  by_cases himg : isImagePath relPath
  · have htype : f.type = "image" := by rw [hf]; simp [himg]
    have hcontent : contentToUpload relPath data = data := by
      simp [contentToUpload, himg]
    simp [htype, hcontent]
  · have htype : f.type = "other" := by rw [hf]; simp [himg]
    have hcontent : contentToUpload relPath data = compressData data := by
      simp [contentToUpload, himg]
    simp [htype, hcontent, decompressData, compressData]


theorem C5_witness :
    decompressData (compressData [7, 8]) = .ok [7, 8] ∧
    getSingleFile ⟨providerC5, storageC5⟩ "c1" "main" "1.0" "a.txt" =
      .ok ([7, 8], "a.txt") ∧
    calculateHash [7, 8] = fileC5.hash := by
  have h := C5_round_trip ⟨"/r", [], [], []⟩ storageC5 storageC5 providerC5
    "cb" "a.txt" [7, 8] fileC5 "c1" "main" "1.0" versionC5 [fileC5]
    (by rfl) (by rfl) (by rfl) (by rfl) (by rfl)
  exact ⟨h.1, by exact h.2.2.1, h.2.2.2⟩

/-! ### C1 — automatic lineage strategy -/


/-- In a newest-first list, `find?` returns a match with maximal
`createdAt` among all matches. -/
theorem find?_max_createdAt {l : List Version} {p : Version → Bool} {v : Version}
    (hs : SortedDesc l) (hf : l.find? p = some v) :
    ∀ w ∈ l, p w = true → w.createdAt ≤ v.createdAt := by
  induction l with
  | nil => simp at hf
  | cons x xs ih =>
      by_cases hp : p x
      · rw [List.find?_cons_of_pos _ hp] at hf
        injection hf with hvx
        subst hvx
        intro w hw _
        rcases List.mem_cons.1 hw with hwx | hw
        · exact hwx ▸ le_refl _
        · exact (List.pairwise_cons.1 hs).1 w hw
      · rw [List.find?_cons_of_neg _ hp] at hf
        intro w hw hpw
        rcases List.mem_cons.1 hw with hwx | hw
        · exact absurd (hwx ▸ hpw) hp
        · exact ih (List.pairwise_cons.1 hs).2 hf w hw hpw

/-- `IsNewBranch` returns `false` exactly when `FindLatestVersionInBranch`
finds a parent candidate. -/
theorem isNewBranch_false_iff (st : ProviderState) (cid branch excludeID : String) :
    st.isNewBranch cid branch excludeID = false ↔
      ∃ v, st.findLatestVersionInBranch cid branch excludeID = some v := by
  unfold ProviderState.isNewBranch ProviderState.findLatestVersionInBranch
  constructor
  · intro h
    have hne : ((lookupA cid st.versionsByCodebase).getD []).filter
        (fun v => v.branch == branch && v.id != excludeID) ≠ [] := by
      intro hnil
      rw [hnil] at h
      simp at h
    obtain ⟨x, hx⟩ := List.exists_mem_of_ne_nil _ hne
    obtain ⟨hmem, hp⟩ := List.mem_filter.1 hx
    have : (((lookupA cid st.versionsByCodebase).getD []).find?
        (fun v => v.branch == branch && v.id != excludeID)).isSome :=
      List.find?_isSome.2 ⟨x, hmem, hp⟩
    obtain ⟨v, hv⟩ := Option.isSome_iff_exists.1 this
    exact ⟨v, hv⟩
  · rintro ⟨v, hv⟩
    have hmem := List.mem_of_find?_eq_some hv
    have hp := List.find?_some hv
    have : v ∈ ((lookupA cid st.versionsByCodebase).getD []).filter
        (fun v => v.branch == branch && v.id != excludeID) :=
      List.mem_filter.2 ⟨hmem, hp⟩
    rcases hfil : ((lookupA cid st.versionsByCodebase).getD []).filter
        (fun v => v.branch == branch && v.id != excludeID) with _ | ⟨y, ys⟩
    · rw [hfil] at this; simp at this
    · rw [hfil]; simp

/-- C1: with auto-linkage and no explicit `branch_from`, an existing branch
gets exactly one `sequential` link to the most recently created other version
on that branch; a new branch gets exactly one `branch_from` link to the
latest version on the literal `"main"` branch, or no link at all when
`"main"` has no versions; an explicit `branch_from` gives exactly one
`branch_from` link to the version resolved from the named (branch, label).
(`versionID`s are generated UUIDs, so the maximality statements quantify over
versions with non-empty ids where the source's exclusion marker is `""`.) -/
theorem C1_linkage_strategy (st : ProviderState) (cid versionID branch linkID : String)
    (hsorted : SortedDesc ((lookupA cid st.versionsByCodebase).getD []))
    (hfresh : st.versionMapping.find? (fun r => r.childVersionID == versionID) = none) :
    (st.isNewBranch cid branch versionID = false →
      ∃ p, st.findLatestVersionInBranch cid branch versionID = some p ∧
        establishLinkage st cid versionID branch none linkID =
          .ok { st with versionMapping :=
            ⟨linkID, cid, branch, versionID, p.id, .sequential⟩ :: st.versionMapping } ∧
        p.branch = branch ∧ p.id ≠ versionID ∧
        p ∈ (lookupA cid st.versionsByCodebase).getD [] ∧
        (∀ w ∈ (lookupA cid st.versionsByCodebase).getD [],
          w.branch = branch → w.id ≠ versionID → w.createdAt ≤ p.createdAt)) ∧
    (st.isNewBranch cid branch versionID = true →
      (∀ p, st.findLatestVersionInMain cid = some p →
        establishLinkage st cid versionID branch none linkID =
          .ok { st with versionMapping :=
            ⟨linkID, cid, branch, versionID, p.id, .branchFrom⟩ :: st.versionMapping } ∧
        p.branch = "main" ∧
        (∀ w ∈ (lookupA cid st.versionsByCodebase).getD [],
          w.branch = "main" → w.id ≠ "" → w.createdAt ≤ p.createdAt)) ∧
      (st.findLatestVersionInMain cid = none →
        establishLinkage st cid versionID branch none linkID = .ok st)) ∧
    (∀ bf p, st.getVersion cid bf.branch bf.version = .ok p →
      establishLinkage st cid versionID branch (some bf) linkID =
        .ok { st with versionMapping :=
          ⟨linkID, cid, branch, versionID, p.id, .branchFrom⟩ :: st.versionMapping }) := by
  have hins : ∀ parentID ltype,
      st.createVersionLink cid versionID parentID branch ltype linkID =
        { st with versionMapping :=
          ⟨linkID, cid, branch, versionID, parentID, ltype⟩ :: st.versionMapping } := by
    intro parentID ltype
    unfold ProviderState.createVersionLink
    rw [hfresh]
    simp
  refine ⟨?_, fun hnew => ⟨?_, ?_⟩, ?_⟩
  · intro hold
    obtain ⟨p, hp⟩ := (isNewBranch_false_iff st cid branch versionID).1 hold
    have hpred := List.find?_some hp
    have hmem := List.mem_of_find?_eq_some hp
    simp only [Bool.and_eq_true, beq_iff_eq, bne_iff_ne, ne_eq] at hpred
    refine ⟨p, hp, ?_, hpred.1, hpred.2, hmem, ?_⟩
    · unfold establishLinkage
      rw [hold]
      simp only [Bool.false_eq_true, if_false]
      unfold autoCreateSequentialLink
      rw [hp]
      dsimp only
      rw [hins]
    · intro w hw hwb hwid
      refine find?_max_createdAt hsorted hp w hw ?_
      simp [hwb, hwid]
  · intro p hp
    refine ⟨?_, ?_, ?_⟩
    · unfold establishLinkage
      rw [hnew]
      simp only [if_true]
      unfold autoCreateLinkForNewBranch
      rw [hp]
      dsimp only
      rw [hins]
    · have hpred := List.find?_some hp
      simp only [Bool.and_eq_true, beq_iff_eq, bne_iff_ne, ne_eq] at hpred
      exact hpred.1
    · intro w hw hwb hwid
      refine find?_max_createdAt hsorted hp w hw ?_
      simp [hwb, hwid]
  · intro hnone
    unfold establishLinkage
    rw [hnew]
    simp only [if_true]
    unfold autoCreateLinkForNewBranch
    rw [hnone]
  · intro bf p hp
    unfold establishLinkage
    dsimp only
    unfold autoCreateBranchFromLink
    rw [hp]
    dsimp only
    rw [hins]


theorem C1_witness :
    stC1.isNewBranch "c1" "feature" "v2" = true ∧
    stC1.findLatestVersionInMain "c1" = some v1C1 ∧
    establishLinkage stC1 "c1" "v2" "feature" none "l1" =
      .ok { stC1 with versionMapping :=
        [⟨"l1", "c1", "feature", "v2", "v1", .branchFrom⟩] } := by
  have h := C1_linkage_strategy stC1 "c1" "v2" "feature" "l1"
    (by unfold SortedDesc; decide) rfl
  refine ⟨rfl, by rfl, ?_⟩
  exact ((h.2.1 rfl).1 v1C1 (by rfl)).1

/-! ### C2 — at most one parent per version -/


/-- Every reachable state has pairwise-distinct child ids in its link
collection — the chained form of the forest invariant. -/
theorem reachable_mapping_nodup {st : ProviderState} (h : Reachable st) :
    List.Pairwise (fun a b => a.childVersionID ≠ b.childVersionID) st.versionMapping := by
  induction h with
  | init => simp [emptyProvider]
  | createCodebase hr hok ih =>
      rename_i st st' cb
      unfold ProviderState.createCodebase at hok
      split at hok
      · exact absurd hok (by simp)
      · injection hok with h'
        rw [← h']
        exact ih
  | updateTimestamp hr hok ih =>
      rename_i st st' id t
      unfold ProviderState.updateCodebaseTimestamp at hok
      split at hok
      · exact absurd hok (by simp)
      · injection hok with h'
        rw [← h']
        exact ih
  | createVersion hr hok ih =>
      rename_i st st' v files
      unfold ProviderState.createVersion at hok
      split at hok
      · exact absurd hok (by simp)
      · injection hok with h'
        rw [← h']
        exact ih
  | createVersionLink hr ih =>
      rename_i st cid childID parentID branch linkID ltype
      unfold ProviderState.createVersionLink
      split
      · exact ih
      · rename_i hnone
        have hfind : st.versionMapping.find? (fun r => r.childVersionID == childID) = none := by
          cases hf : st.versionMapping.find? (fun r => r.childVersionID == childID) with
          | none => rfl
          | some r => rw [hf] at hnone; simp at hnone
        refine List.pairwise_cons.2 ⟨?_, ih⟩
        intro r hr'
        have hne := List.find?_eq_none.1 hfind r hr'
        exact fun hh => hne (beq_iff_eq.mpr hh.symm)
  | deleteCodebase hr ih =>
      rename_i st id
      unfold ProviderState.deleteCodebaseByID
      exact List.Pairwise.sublist (List.filter_sublist _) ih
  | updateHistoryCache hr ih =>
      rename_i st cid data
      unfold ProviderState.updateHistoryCache
      exact ih

/-- Pairwise-distinct child ids bound the per-child link count by one. -/
theorem pairwise_child_count_le_one {l : List LinkRecord}
    (h : List.Pairwise (fun a b => a.childVersionID ≠ b.childVersionID) l) (c : String) :
    (l.filter (fun r => r.childVersionID == c)).length ≤ 1 := by
  induction l with
  | nil => simp
  | cons x xs ih =>
      obtain ⟨hx, hxs⟩ := List.pairwise_cons.1 h
      by_cases hc : x.childVersionID = c
      · have hnil : xs.filter (fun r => r.childVersionID == c) = [] := by
          rw [List.filter_eq_nil_iff]
          intro r hr
          have := hx r hr
          simp [hc] at this ⊢
          exact fun hrc => this (hrc.symm)
        simp [List.filter_cons, hc, hnil]
      · simp only [List.filter_cons]
        have : (x.childVersionID == c) = false := by simp [hc]
        rw [this]
        exact ih hxs

/-- C2: in every reachable store state each version has at most one lineage
link naming it as child, and `CreateVersionLink` on a child that already has
a link reports success while changing nothing — the existing link's parent
and linkage type survive untouched. -/
theorem C2_at_most_one_parent (st : ProviderState) (hreach : Reachable st) :
    (∀ c, (st.versionMapping.filter (fun r => r.childVersionID == c)).length ≤ 1) ∧
    (∀ cid childID parentID branch ltype linkID,
      (st.versionMapping.find? (fun r => r.childVersionID == childID)).isSome →
      st.createVersionLink cid childID parentID branch ltype linkID = st) := by
  refine ⟨fun c => pairwise_child_count_le_one (reachable_mapping_nodup hreach) c, ?_⟩
  intro cid childID parentID branch ltype linkID hsome
  unfold ProviderState.createVersionLink
  rw [if_pos hsome]

theorem C2_witness :
    (((emptyProvider.createVersionLink "c" "ch" "pa" "b" .sequential "l1").versionMapping.filter
        (fun r => r.childVersionID == "ch")).length ≤ 1) ∧
    (emptyProvider.createVersionLink "c" "ch" "pa" "b" .sequential "l1").createVersionLink
        "c" "ch" "p2" "b" .branchFrom "l2" =
      emptyProvider.createVersionLink "c" "ch" "pa" "b" .sequential "l1" := by
  have h := C2_at_most_one_parent
    (emptyProvider.createVersionLink "c" "ch" "pa" "b" .sequential "l1")
    (Reachable.createVersionLink Reachable.init)
  exact ⟨h.1 "ch", h.2 "c" "ch" "p2" "b" .branchFrom "l2" (by decide)⟩

/-! ### C3 / C10 — pipeline failure atomicity and absence of blob rollback -/

theorem processFile_fails_case (storage : BlobStore) (u : FileUnit) (name : String)
    (h : unitFails storage.failPuts name u = true) :
    processFile storage u.path u.data name = .error (uploadErrorMessage name u) := by
  have h' : storage.failPuts.contains (storageKeyFor name u.data) = true := h
  unfold processFile BlobStore.putObject
  unfold storageKeyFor at h'
  simp only [h', if_true]
  rfl

theorem processFile_succeeds_case (storage : BlobStore) (u : FileUnit) (name : String)
    (h : unitFails storage.failPuts name u = false) :
    processFile storage u.path u.data name =
      .ok ({ storage with
          objects := insertA (filepathJoin storage.basePath (storageKeyFor name u.data))
            (contentToUpload u.path u.data) storage.objects },
        mkFileRecord name u) := by
  refine (processFile_ok_iff _ _ _ _ _ _).2 ⟨?_, rfl⟩
  have h' : storage.failPuts.contains (storageKeyFor name u.data) = false := h
  unfold BlobStore.putObject
  simp only [h']
  rfl

theorem processFilesStep_error (name : String) (acc : PipelineAcc) (u : FileUnit)
    (h : unitFails acc.storage.failPuts name u = true) :
    processFilesStep name acc u =
      { acc with errors := acc.errors ++ [uploadErrorMessage name u] } := by
  unfold processFilesStep
  rw [processFile_fails_case _ _ _ h]

theorem processFilesStep_ok (name : String) (acc : PipelineAcc) (u : FileUnit)
    (h : unitFails acc.storage.failPuts name u = false) :
    processFilesStep name acc u =
      { storage := { acc.storage with
            objects := insertA (filepathJoin acc.storage.basePath (storageKeyFor name u.data))
              (contentToUpload u.path u.data) acc.storage.objects },
        processed := acc.processed ++ [mkFileRecord name u],
        stats := ⟨acc.stats.totalFiles + 1,
          acc.stats.totalSize + (mkFileRecord name u).size,
          acc.stats.compressedSize + (mkFileRecord name u).compressedSize⟩,
        errors := acc.errors } := by
  unfold processFilesStep
  rw [processFile_succeeds_case _ _ _ h]

/-- Pipeline steps never change the storage's base path or fault model. -/
theorem foldl_step_fields (name : String) (order : List FileUnit) (acc : PipelineAcc) :
    (order.foldl (processFilesStep name) acc).storage.basePath = acc.storage.basePath ∧
    (order.foldl (processFilesStep name) acc).storage.failPuts = acc.storage.failPuts := by
  induction order generalizing acc with
  | nil => exact ⟨rfl, rfl⟩
  | cons u rest ih =>
      simp only [List.foldl_cons]
      have hstep : (processFilesStep name acc u).storage.basePath = acc.storage.basePath ∧
          (processFilesStep name acc u).storage.failPuts = acc.storage.failPuts := by
        by_cases h : unitFails acc.storage.failPuts name u = true
        · rw [processFilesStep_error name acc u h]
          exact ⟨rfl, rfl⟩
        · rw [processFilesStep_ok name acc u (by simpa using h)]
          exact ⟨rfl, rfl⟩
      obtain ⟨h1', h2'⟩ := ih (processFilesStep name acc u)
      exact ⟨h1'.trans hstep.1, h2'.trans hstep.2⟩

/-- The error channel after the fan-in holds exactly the failed units'
messages, in schedule order. -/
theorem foldl_step_errors (name : String) (order : List FileUnit) (acc : PipelineAcc) :
    (order.foldl (processFilesStep name) acc).errors =
      acc.errors ++ (order.filter (unitFails acc.storage.failPuts name)).map
        (uploadErrorMessage name) := by
  induction order generalizing acc with
  | nil => simp
  | cons u rest ih =>
      simp only [List.foldl_cons, List.filter_cons]
      by_cases h : unitFails acc.storage.failPuts name u = true
      · rw [h]
        rw [processFilesStep_error name acc u h, ih]
        simp
      · have hf : unitFails acc.storage.failPuts name u = false := by simpa using h
        rw [hf]
        rw [processFilesStep_ok name acc u hf, ih]
        simp

theorem filter_eq_cons_of_find? {α : Type} (p : α → Bool) (l : List α) (u : α)
    (h : l.find? p = some u) : ∃ t, l.filter p = u :: t := by
  induction l with
  | nil => simp at h
  | cons x xs ih =>
      by_cases hp : p x
      · rw [List.find?_cons_of_pos _ hp] at h
        injection h with h
        subst h
        exact ⟨xs.filter p, by simp [List.filter_cons, hp]⟩
      · rw [List.find?_cons_of_neg _ hp] at h
        obtain ⟨t, ht⟩ := ih h
        refine ⟨t, ?_⟩
        simp only [List.filter_cons]
        simp only [Bool.not_eq_true] at hp
        rw [hp, ht]
        simp

/-- If some unit fails, the pipeline reports exactly the first failing
unit's error. -/
theorem processFiles_error_of_find (storage : BlobStore) (order : List FileUnit)
    (name : String) (u : FileUnit)
    (hfind : order.find? (unitFails storage.failPuts name) = some u) :
    (processFiles storage order name).2 = .error (uploadErrorMessage name u) := by
  unfold processFiles
  obtain ⟨t, ht⟩ := filter_eq_cons_of_find? _ _ _ hfind
  have herr := foldl_step_errors name order ⟨storage, [], ⟨0, 0, 0⟩, []⟩
  rw [ht] at herr
  simp only [List.nil_append, List.map_cons] at herr
  dsimp only
  rw [herr]

/-- C3: when any per-file unit of the snapshot pipeline fails, the whole
snapshot call returns the first observed per-file error and the metadata
store is left exactly as it was — no Version and no File Tree record is
written. -/
theorem C3_pipeline_failure_is_atomic (sys : SysState) (cid ver branch message : String)
    (order : List FileUnit) (branchFrom : Option BranchFrom) (autoLinkage : Bool)
    (ids : SnapshotIDs) (mapOrder : List LinkRecord) (cb : Codebase) (u : FileUnit)
    (hcb : lookupA cid sys.provider.codebases = some cb)
    (hfirst : order.find? (unitFails sys.storage.failPuts cb.name) = some u) :
    processSnapshot sys cid ver branch message order branchFrom autoLinkage ids mapOrder =
      (⟨sys.provider, (processFiles sys.storage order cb.name).1⟩,
        .error (uploadErrorMessage cb.name u)) := by
  have herr := processFiles_error_of_find sys.storage order cb.name u hfirst
  unfold processSnapshot
  rw [hcb]
  dsimp only
  unfold createSnapshot
  cases hpf : processFiles sys.storage order cb.name with
  | mk storage' res =>
      rw [hpf] at herr
      dsimp only at herr
      subst herr
      rfl

theorem C3_witness :
    processSnapshot
        ⟨{ emptyProvider with codebases := [("c1", ⟨"c1", "cb", "", "main", 0, 0⟩)] },
          ⟨"/r", [], [storageKeyFor "cb" [9]], []⟩⟩
        "c1" "1.0" "main" "msg" [⟨"f.bin", [9]⟩] none true ⟨"v1", "t1", "l1", 3⟩ [] =
      (⟨{ emptyProvider with codebases := [("c1", ⟨"c1", "cb", "", "main", 0, 0⟩)] },
          ⟨"/r", [], [storageKeyFor "cb" [9]], []⟩⟩,
        .error (uploadErrorMessage "cb" ⟨"f.bin", [9]⟩)) := by
  have h := C3_pipeline_failure_is_atomic
    ⟨{ emptyProvider with codebases := [("c1", ⟨"c1", "cb", "", "main", 0, 0⟩)] },
      ⟨"/r", [], [storageKeyFor "cb" [9]], []⟩⟩
    "c1" "1.0" "main" "msg" [⟨"f.bin", [9]⟩] none true ⟨"v1", "t1", "l1", 3⟩ []
    ⟨"c1", "cb", "", "main", 0, 0⟩ ⟨"f.bin", [9]⟩ (by rfl) (by rfl)
  exact h.trans (by rfl)

/-- Blobs present at a target path before part of the fan-out runs are still
present afterwards, provided every remaining unit aiming at that exact path
carries the same content (distinct contents at one content-addressed path
would be a hash collision). -/
theorem foldl_step_preserves_blob (name : String) (order : List FileUnit)
    (acc : PipelineAcc) (tgt : String) (c : Bytes)
    (hpresent : lookupA tgt acc.storage.objects = some c)
    (hsame : ∀ w ∈ order,
      filepathJoin acc.storage.basePath (storageKeyFor name w.data) = tgt →
      contentToUpload w.path w.data = c) :
    lookupA tgt (order.foldl (processFilesStep name) acc).storage.objects = some c := by
  induction order generalizing acc with
  | nil => simpa using hpresent
  | cons u rest ih =>
      simp only [List.foldl_cons]
      by_cases h : unitFails acc.storage.failPuts name u = true
      · rw [processFilesStep_error name acc u h]
        exact ih _ hpresent (fun w hw => hsame w (List.mem_cons_of_mem _ hw))
      · have hf : unitFails acc.storage.failPuts name u = false := by simpa using h
        rw [processFilesStep_ok name acc u hf]
        apply ih
        · show lookupA tgt (insertA (filepathJoin acc.storage.basePath
            (storageKeyFor name u.data)) (contentToUpload u.path u.data)
            acc.storage.objects) = some c
          rw [lookupA_insertA]
          by_cases hk : filepathJoin acc.storage.basePath (storageKeyFor name u.data) = tgt
          · rw [if_pos hk, hsame u (List.mem_cons_self u rest) hk]
          · rw [if_neg hk]
            exact hpresent
        · intro w hw heq
          exact hsame w (List.mem_cons_of_mem _ hw) heq

/-- Whatever the pipeline outcome, the returned blob store is the fold's
final storage — Go's goroutines have already written to it. -/
theorem processFiles_fst (storage : BlobStore) (order : List FileUnit) (name : String) :
    (processFiles storage order name).1 =
      (order.foldl (processFilesStep name)
        (⟨storage, [], ⟨0, 0, 0⟩, []⟩ : PipelineAcc)).storage := by
  unfold processFiles
  dsimp only
  rcases (order.foldl (processFilesStep name)
      (⟨storage, [], ⟨0, 0, 0⟩, []⟩ : PipelineAcc)).errors with _ | ⟨e, t⟩ <;> rfl

/-- A successful unit's blob write survives to the end of the pipeline. -/
theorem processFiles_success_blob (storage : BlobStore) (order : List FileUnit)
    (name : String) (u : FileUnit) (hu : u ∈ order)
    (hok : unitFails storage.failPuts name u = false)
    (hsame : ∀ w ∈ order,
      filepathJoin storage.basePath (storageKeyFor name w.data) =
        filepathJoin storage.basePath (storageKeyFor name u.data) →
      contentToUpload w.path w.data = contentToUpload u.path u.data) :
    lookupA (filepathJoin storage.basePath (storageKeyFor name u.data))
      (processFiles storage order name).1.objects =
      some (contentToUpload u.path u.data) := by
  obtain ⟨pre, post, rfl⟩ := List.append_of_mem hu
  rw [processFiles_fst]
  rw [List.foldl_append, List.foldl_cons]
  obtain ⟨hbase, hfail⟩ :=
    foldl_step_fields name pre (⟨storage, [], ⟨0, 0, 0⟩, []⟩ : PipelineAcc)
  have hfu : unitFails
      (pre.foldl (processFilesStep name) ⟨storage, [], ⟨0, 0, 0⟩, []⟩).storage.failPuts
      name u = false := by
    rw [hfail]; exact hok
  rw [processFilesStep_ok name _ u hfu]
  apply foldl_step_preserves_blob
  · show lookupA _ (insertA (filepathJoin
      (pre.foldl (processFilesStep name) ⟨storage, [], ⟨0, 0, 0⟩, []⟩).storage.basePath
      (storageKeyFor name u.data)) (contentToUpload u.path u.data) _) = _
    rw [hbase, lookupA_insertA, if_pos rfl]
  · intro w hw heq
    have heq2 : filepathJoin
        (pre.foldl (processFilesStep name)
          (⟨storage, [], ⟨0, 0, 0⟩, []⟩ : PipelineAcc)).storage.basePath
        (storageKeyFor name w.data) =
        filepathJoin storage.basePath (storageKeyFor name u.data) := heq
    rw [hbase] at heq2
    exact hsame w (by simp [List.mem_append, hw]) heq2

/-- If any unit fails, the pipeline as a whole fails. -/
theorem processFiles_error_of_failed_mem (storage : BlobStore) (order : List FileUnit)
    (name : String) (w : FileUnit) (hw : w ∈ order)
    (hfail : unitFails storage.failPuts name w = true) :
    ∃ e, (processFiles storage order name).2 = .error e := by
  unfold processFiles
  dsimp only
  have herr := foldl_step_errors name order (⟨storage, [], ⟨0, 0, 0⟩, []⟩ : PipelineAcc)
  have hmem : w ∈ order.filter (unitFails storage.failPuts name) :=
    List.mem_filter.2 ⟨hw, hfail⟩
  rcases hfil : order.filter (unitFails storage.failPuts name) with _ | ⟨x, t⟩
  · rw [hfil] at hmem; simp at hmem
  · rw [hfil] at herr
    simp only [List.nil_append, List.map_cons] at herr
    rw [herr]
    exact ⟨_, rfl⟩

/-- C10: when one unit fails and another succeeds, the whole snapshot fails
but the succeeded unit's blob write is still in the blob store afterwards —
the pipeline performs no rollback of blob writes. -/
theorem C10_no_blob_rollback (storage : BlobStore) (order : List FileUnit) (name : String)
    (u w : FileUnit) (hu : u ∈ order) (hw : w ∈ order)
    (hok : unitFails storage.failPuts name u = false)
    (hfail : unitFails storage.failPuts name w = true)
    (hsame : ∀ x ∈ order,
      filepathJoin storage.basePath (storageKeyFor name x.data) =
        filepathJoin storage.basePath (storageKeyFor name u.data) →
      contentToUpload x.path x.data = contentToUpload u.path u.data) :
    (∃ e, (processFiles storage order name).2 = .error e) ∧
    lookupA (filepathJoin storage.basePath (storageKeyFor name u.data))
      (processFiles storage order name).1.objects =
      some (contentToUpload u.path u.data) :=
  ⟨processFiles_error_of_failed_mem storage order name w hw hfail,
    processFiles_success_blob storage order name u hu hok hsame⟩

theorem C10_witness :
    (∃ e, (processFiles ⟨"/r", [], [storageKeyFor "cb" [2]], []⟩
        [⟨"a.txt", [1]⟩, ⟨"b.txt", [2]⟩] "cb").2 = .error e) ∧
    lookupA (filepathJoin "/r" (storageKeyFor "cb" [1]))
      (processFiles ⟨"/r", [], [storageKeyFor "cb" [2]], []⟩
        [⟨"a.txt", [1]⟩, ⟨"b.txt", [2]⟩] "cb").1.objects =
      some (contentToUpload "a.txt" [1]) :=
  C10_no_blob_rollback ⟨"/r", [], [storageKeyFor "cb" [2]], []⟩
    [⟨"a.txt", [1]⟩, ⟨"b.txt", [2]⟩] "cb" ⟨"a.txt", [1]⟩ ⟨"b.txt", [2]⟩
    (by decide) (by decide) (by rfl) (by rfl) (by decide)

/-! ### C8 — the delete-prefix guard does not protect the store root -/

/-- C8: evaluating `DeleteObjectsWithPrefix` at the failing inputs.  The
prefix `"."` joins to the store root itself, passes both guards, and the call
removes every object under the root; the prefix `"../oss2"` joins to a
sibling directory that shares the root as a *string* prefix, passes the
guards, and deletes outside the store.  Only the genuinely empty prefix is
rejected.  The claim requires all three to be rejected with nothing
deleted. -/
theorem C8_guard_accepts_root_and_sibling :
    (storeC8.deleteObjectsPrefixed "." =
      .ok { storeC8 with objects := [("/data/oss2/f", [3])] }) ∧
    (storeC8.deleteObjectsPrefixed "../oss2" =
      .ok { storeC8 with objects :=
        [("/data/oss/cb/h1", [1]), ("/data/oss/cb/h2", [2])] }) ∧
    (storeC8.deleteObjectsPrefixed "" =
      .error "not allowed to delete root directory or use empty prefix") :=
  ⟨by rfl, by rfl, by rfl⟩

/-! ### C9 — storage deletion strictly precedes metadata deletion -/

/-- C9: `DeleteCodebase` deletes the codebase's blobs by name prefix first;
when that storage deletion fails the call returns the error and the whole
metadata state (codebase, versions, file indexes, links, cache) is exactly
what it was; only after storage deletion succeeds is the metadata record
deleted. -/
theorem C9_storage_deletion_first (sys : SysState) (cid : String) (cb : Codebase)
    (hcb : lookupA cid sys.provider.codebases = some cb) :
    (∀ e, sys.storage.deleteObjectsPrefixed (cb.name ++ "/") = .error e →
      deleteCodebase sys cid =
        (sys, .error ("failed to delete files from storage: " ++ e))) ∧
    (∀ storage', sys.storage.deleteObjectsPrefixed (cb.name ++ "/") = .ok storage' →
      deleteCodebase sys cid =
        (⟨sys.provider.deleteCodebaseByID cid, storage'⟩, .ok ())) := by
  constructor
  · intro e he
    unfold deleteCodebase
    rw [hcb]
    dsimp only
    rw [he]
  · intro storage' hok
    unfold deleteCodebase
    rw [hcb]
    dsimp only
    rw [hok]

theorem C9_witness :
    deleteCodebase sysC9 "c1" =
      (sysC9, .error ("failed to delete files from storage: " ++ "storage delete failed")) := by
  have h := C9_storage_deletion_first sysC9 "c1" ⟨"c1", "cb", "", "main", 0, 0⟩ (by rfl)
  exact h.1 "storage delete failed" (by rfl)

/-! ### C7 — cache rebuild determinism -/

/-- C7 counterexample: `GetAllVersionEdgesForMap` iterates a Go map whose
iteration order is unspecified and varies between two iterations of the same
unmodified map.  With two links, two valid iteration orders of the very same
link collection serialize to different cache bytes, so two rebuilds with no
intervening writes need not be byte-identical. -/
theorem C7_counterexample :
    List.Perm [r1C7, r2C7] stC7.versionMapping ∧
    List.Perm [r2C7, r1C7] stC7.versionMapping ∧
    lookupA "c1" (stC7.rebuildHistoryCache "c1" [r1C7, r2C7]).1.historyCache ≠
      lookupA "c1" (stC7.rebuildHistoryCache "c1" [r2C7, r1C7]).1.historyCache :=
  ⟨List.Perm.refl _, List.Perm.swap r1C7 r2C7 [], by decide⟩

/-- C7 amended: two rebuilds with no intervening writes agree on the codebase
id, the node list and the branch refs byte-for-byte, and their edge lists are
permutations of each other; the serialized cache bytes are identical whenever
the two map-iteration orders are the same (in particular whenever the
codebase has at most one link). -/
theorem C7_rebuild_deterministic_up_to_edge_order (st : ProviderState) (cid : String)
    (ord₁ ord₂ : List LinkRecord)
    (h₁ : List.Perm ord₁ st.versionMapping) (h₂ : List.Perm ord₂ st.versionMapping) :
    (st.rebuildHistoryCache cid ord₁).2.codebaseID =
      (st.rebuildHistoryCache cid ord₂).2.codebaseID ∧
    (st.rebuildHistoryCache cid ord₁).2.nodes =
      (st.rebuildHistoryCache cid ord₂).2.nodes ∧
    (st.rebuildHistoryCache cid ord₁).2.refs =
      (st.rebuildHistoryCache cid ord₂).2.refs ∧
    List.Perm (st.rebuildHistoryCache cid ord₁).2.edges
      (st.rebuildHistoryCache cid ord₂).2.edges ∧
    (ord₁ = ord₂ →
      (st.rebuildHistoryCache cid ord₁).1.historyCache =
        (st.rebuildHistoryCache cid ord₂).1.historyCache) := by
  refine ⟨rfl, rfl, rfl, ?_, ?_⟩
  · have h := h₁.trans h₂.symm
    exact (h.filter _).map _
  · intro h
    rw [h]

theorem C7_witness :
    List.Perm (stC7.rebuildHistoryCache "c1" [r1C7, r2C7]).2.edges
      (stC7.rebuildHistoryCache "c1" [r2C7, r1C7]).2.edges ∧
    (stC7.rebuildHistoryCache "c1" [r1C7, r2C7]).2.nodes =
      (stC7.rebuildHistoryCache "c1" [r2C7, r1C7]).2.nodes := by
  have h := C7_rebuild_deterministic_up_to_edge_order stC7 "c1" [r1C7, r2C7] [r2C7, r1C7]
    (List.Perm.refl _) (List.Perm.swap r1C7 r2C7 [])
  exact ⟨h.2.2.2.1, h.2.1⟩

/-! ### C6 — cache-coherence contract of the graph cache -/

theorem createVersionLink_frame (st : ProviderState)
    (cid childID parentID branch linkID : String) (ltype : LinkageType) :
    (st.createVersionLink cid childID parentID branch ltype linkID).historyCache =
      st.historyCache ∧
    (st.createVersionLink cid childID parentID branch ltype linkID).versions =
      st.versions := by
  unfold ProviderState.createVersionLink
  split <;> exact ⟨rfl, rfl⟩

/-- The automatic linkage path touches only the link collection: the history
cache and the version collection are unchanged. -/
theorem establishLinkage_frame (st st' : ProviderState) (cid versionID branch : String)
    (branchFrom : Option BranchFrom) (linkID : String)
    (h : establishLinkage st cid versionID branch branchFrom linkID = .ok st') :
    st'.historyCache = st.historyCache ∧ st'.versions = st.versions := by
  unfold establishLinkage at h
  rcases branchFrom with _ | bf
  · dsimp only at h
    split at h
    · unfold autoCreateLinkForNewBranch at h
      split at h
      · injection h with h
        rw [← h]
        exact ⟨rfl, rfl⟩
      · injection h with h
        rw [← h]
        exact createVersionLink_frame ..
    · unfold autoCreateSequentialLink at h
      split at h
      · injection h with h
        rw [← h]
        exact ⟨rfl, rfl⟩
      · injection h with h
        rw [← h]
        exact createVersionLink_frame ..
  · dsimp only at h
    unfold autoCreateBranchFromLink at h
    split at h
    · exact absurd h (by simp)
    · injection h with h
      rw [← h]
      exact createVersionLink_frame ..

theorem updateTimestamp_frame (st st' : ProviderState) (id : String) (t : Nat)
    (h : st.updateCodebaseTimestamp id t = .ok st') :
    st'.historyCache = st.historyCache ∧ st'.versions = st.versions := by
  unfold ProviderState.updateCodebaseTimestamp at h
  split at h
  · exact absurd h (by simp)
  · injection h with h
    rw [← h]
    exact ⟨rfl, rfl⟩

theorem createVersion_frame (st st' : ProviderState) (v : Version) (files : List File)
    (h : st.createVersion v files = .ok st') :
    st'.historyCache = st.historyCache ∧
    st'.versions = insertA v.id v st.versions := by
  unfold ProviderState.createVersion at h
  split at h
  · exact absurd h (by simp)
  · injection h with h
    rw [← h]
    exact ⟨rfl, rfl⟩

theorem createSnapshot_ok_shape (storage : BlobStore) (order : List FileUnit)
    (name branch ver message versionID treeID : String) (now : Nat)
    (storage' : BlobStore) (v : Version) (ft : FileTree)
    (h : createSnapshot storage order name branch ver message versionID treeID now =
      (storage', .ok (v, ft))) :
    v.id = versionID := by
  unfold createSnapshot at h
  cases hpf : processFiles storage order name with
  | mk s r =>
      rw [hpf] at h
      cases r with
      | error e =>
          dsimp only at h
          injection h with h1 h2
          exact absurd h2 (by simp)
      | ok p =>
          rcases p with ⟨files, stats⟩
          dsimp only at h
          injection h with h1 h2
          injection h2 with h3
          injection h3 with hv hft
          rw [← hv]

/-- C6: `getGraph` returns the cached blob verbatim on a hit, rebuilds only on
a miss; the automatic snapshot linkage path never invalidates or rebuilds the
cache while only the manual link-creation entry point schedules the
asynchronous rebuild; consequently a snapshot created through the automatic
path with a warm cache hands back the stale pre-snapshot graph — one that
omits the newly created version even though that version is in the store. -/
theorem C6_cache_stale_after_snapshot :
    (∀ (st : ProviderState) (cid blob : String) (mapOrder : List LinkRecord),
      lookupA cid st.historyCache = some blob →
      st.getVersionMap cid mapOrder = .ok (blob, st)) ∧
    (∀ (st : ProviderState) (cid : String) (mapOrder : List LinkRecord),
      lookupA cid st.historyCache = none →
      st.getVersionMap cid mapOrder =
        .ok (serializeGraph (st.rebuildHistoryCache cid mapOrder).2,
          (st.rebuildHistoryCache cid mapOrder).1)) ∧
    (∀ (st st' : ProviderState) (cid versionID branch linkID : String)
        (branchFrom : Option BranchFrom),
      establishLinkage st cid versionID branch branchFrom linkID = .ok st' →
      st'.historyCache = st.historyCache) ∧
    (∀ (st st' : ProviderState) (cid linkID : String)
        (child parentIdent : VersionIdentifier) (ltype : LinkageType) (sched : Bool),
      createVersionLinkWithType st cid child parentIdent ltype linkID = .ok (st', sched) →
      sched = true) ∧
    (∀ (sys sys' : SysState) (cid ver branch message : String) (order : List FileUnit)
        (branchFrom : Option BranchFrom) (ids : SnapshotIDs)
        (mapOrder : List LinkRecord) (res : SnapshotResult) (g : VersionMapResponse),
      lookupA cid sys.provider.historyCache = some (serializeGraph g) →
      ids.versionID ∉ g.nodes.map VersionNode.id →
      processSnapshot sys cid ver branch message order branchFrom true ids mapOrder =
        (sys', .ok res) →
      res.versionMapJSON = some (serializeGraph g) ∧
      sys'.provider.historyCache = sys.provider.historyCache ∧
      (lookupA ids.versionID sys'.provider.versions).isSome ∧
      ids.versionID ∉ g.nodes.map VersionNode.id) := by
  have hhit : ∀ (st : ProviderState) (cid blob : String) (mapOrder : List LinkRecord),
      lookupA cid st.historyCache = some blob →
      st.getVersionMap cid mapOrder = .ok (blob, st) := by
    intro st cid blob mapOrder hcache
    unfold ProviderState.getVersionMap
    rw [hcache]
  refine ⟨hhit, ?_, ?_, ?_, ?_⟩
  · intro st cid mapOrder hmiss
    unfold ProviderState.getVersionMap
    rw [hmiss]
    dsimp only
    have hlook : lookupA cid (st.rebuildHistoryCache cid mapOrder).1.historyCache =
        some (serializeGraph (st.rebuildHistoryCache cid mapOrder).2) := by
      show lookupA cid (insertA cid _ st.historyCache) = _
      rw [lookupA_insertA, if_pos rfl]
      rfl
    rw [hlook]
  · intro st st' cid versionID branch linkID branchFrom h
    exact (establishLinkage_frame st st' cid versionID branch branchFrom linkID h).1
  · intro st st' cid linkID child parentIdent ltype sched h
    unfold createVersionLinkWithType at h
    split at h
    · exact absurd h (by simp)
    · split at h
      · exact absurd h (by simp)
      · injection h with h
        exact (Prod.ext_iff.1 h).2.symm
  · intro sys sys' cid ver branch message order branchFrom ids mapOrder res g
      hcache hfresh hps
    unfold processSnapshot at hps
    cases hcb : lookupA cid sys.provider.codebases with
    | none => rw [hcb] at hps; simp at hps
    | some cb =>
        rw [hcb] at hps
        dsimp only at hps
        cases hsnap : createSnapshot sys.storage order cb.name branch ver message
            ids.versionID ids.treeID ids.now with
        | mk storage' r =>
            rw [hsnap] at hps
            cases r with
            | error e => simp at hps
            | ok p =>
                rcases p with ⟨v₀, ft⟩
                dsimp only at hps
                have hvid : v₀.id = ids.versionID :=
                  createSnapshot_ok_shape _ _ _ _ _ _ _ _ _ _ _ _ hsnap
                cases hupd : sys.provider.updateCodebaseTimestamp cid ids.now with
                | error e => rw [hupd] at hps; simp at hps
                | ok p₁ =>
                    rw [hupd] at hps
                    dsimp only at hps
                    obtain ⟨hp₁c, hp₁v⟩ := updateTimestamp_frame _ _ _ _ hupd
                    cases hver : p₁.createVersion { v₀ with codebaseID := cid } ft.files with
                    | error e => rw [hver] at hps; simp at hps
                    | ok p₂ =>
                        rw [hver] at hps
                        dsimp only at hps
                        obtain ⟨hp₂c, hp₂v⟩ := createVersion_frame _ _ _ _ hver
                        have hp₃ : ∀ p₃ : ProviderState,
                            (establishLinkage p₂ cid v₀.id branch branchFrom ids.linkID
                                = .error "x" → False) →
                            True := fun _ _ => trivial
                        -- the provider after the optional automatic linkage
                        set p₃ := (match establishLinkage p₂ cid
                            { v₀ with codebaseID := cid }.id branch branchFrom ids.linkID with
                          | .error _ => p₂
                          | .ok p' => p') with hp₃def
                        have hp₃c : p₃.historyCache = p₂.historyCache := by
                          rw [hp₃def]
                          cases hel : establishLinkage p₂ cid
                              { v₀ with codebaseID := cid }.id branch branchFrom
                              ids.linkID with
                          | error e => rfl
                          | ok p' =>
                              exact (establishLinkage_frame _ _ _ _ _ _ _ hel).1
                        have hp₃v : p₃.versions = p₂.versions := by
                          rw [hp₃def]
                          cases hel : establishLinkage p₂ cid
                              { v₀ with codebaseID := cid }.id branch branchFrom
                              ids.linkID with
                          | error e => rfl
                          | ok p' =>
                              exact (establishLinkage_frame _ _ _ _ _ _ _ hel).2
                        have hp₃cache : lookupA cid p₃.historyCache =
                            some (serializeGraph g) := by
                          rw [hp₃c, hp₂c, hp₁c]
                          exact hcache
                        have hmap := hhit p₃ cid (serializeGraph g) mapOrder hp₃cache
                        simp only [if_true] at hps
                        rw [hmap] at hps
                        dsimp only at hps
                        injection hps with hsys' hres
                        have hres' : res = ⟨{ v₀ with codebaseID := cid }, ft,
                            some (serializeGraph g)⟩ := by
                          injection hres with h
                          exact h.symm
                        refine ⟨by rw [hres'], ?_, ?_, hfresh⟩
                        · rw [← hsys']
                          dsimp only
                          rw [hp₃c, hp₂c, hp₁c]
                        · rw [← hsys']
                          dsimp only
                          rw [hp₃v, hp₂v, hp₁v]
                          have : ({ v₀ with codebaseID := cid } : Version).id =
                              ids.versionID := hvid
                          rw [lookupA_insertA, this, if_pos rfl]
                          rfl

theorem C6_witness :
    ∃ (sys' : SysState) (res : SnapshotResult),
      processSnapshot sysC6 "c1" "1.0" "main" "m" [⟨"a.txt", [5]⟩] none true
        ⟨"v1", "t1", "l1", 10⟩ [] = (sys', .ok res) ∧
      (res.versionMapJSON = some (serializeGraph gC6) ∧
        sys'.provider.historyCache = sysC6.provider.historyCache ∧
        (lookupA "v1" sys'.provider.versions).isSome ∧
        "v1" ∉ gC6.nodes.map VersionNode.id) := by
  refine ⟨_, _, by rfl, ?_⟩
  exact C6_cache_stale_after_snapshot.2.2.2.2 sysC6 _ "c1" "1.0" "main" "m"
    [⟨"a.txt", [5]⟩] none ⟨"v1", "t1", "l1", 10⟩ [] _ gC6 (by rfl) (by decide) (by rfl)

end CVCS
